import Mathlib

/-!
Verification model of the LocusPocus `Loci` store and query engine
(`src/locuspocus/loci.py`).

The persistent state (the sqlite tables `loci`, `subloci`, `loci_attrs`,
`subloci_attrs`, `positions` created in `Loci._initialize_tables`) is
embedded as lists of row records; `AUTOINCREMENT` primary keys are embedded
as explicit counters.  Fallible statements (the `UNIQUE(LID,key)`
constraints on the attribute tables) return `Except`, and the error value
carries the database state visible after the failed statement, mirroring
sqlite's per-statement autocommit when no enclosing transaction is used.

The in-memory `Locus` class lives in `locuspocus/locus.py`, which is not
part of the sources at hand; its data model (core fields, attribute
entries, ordered sub-locus tree) is modelled from the spec (section 3).
-/

deriving instance DecidableEq for Except

namespace LocusPocus

/-- Modelled from the spec: the in-memory `Locus` of `locuspocus/locus.py`
(absent from the sources): core fields `chromosome`, `start`, `end`
(called `end_` here because `end` is reserved), descriptive fields,
attribute entries, and an ordered tree of sub-loci.  Attributes are kept
as the ordered sequence of `(key, value)` entries handed row by row to the
store (`for key,val in attrs.items()`); the spec's error-handling section
contemplates duplicate keys among the entries reaching the store, so the
model does not force key uniqueness. -/
structure Locus where
  chromosome : String
  start : Int
  end_ : Int
  source : Option String := none
  feature_type : Option String := none
  strand : Option String := none
  frame : Option Int := none
  name : Option String := none
  attrs : List (String × String) := []
  subloci : List Locus := []

/-- A row of the `loci` table. -/
structure LocusRow where
  lid : Nat
  chromosome : String
  start : Int
  end_ : Int
  source : Option String
  feature_type : Option String
  strand : Option String
  frame : Option Int
  name : Option String
deriving DecidableEq

/-- A row of the `subloci` table. -/
structure SubRow where
  lid : Nat
  root_LID : Nat
  parent_LID : Nat
  chromosome : String
  start : Int
  end_ : Int
  source : Option String
  feature_type : Option String
  strand : Option String
  frame : Option Int
  name : Option String
deriving DecidableEq

/-- A row of `loci_attrs` or `subloci_attrs`. -/
structure AttrRow where
  lid : Nat
  key : String
  val : String
deriving DecidableEq

/-- A row of the `positions` R*Tree table. -/
structure PosRow where
  lid : Nat
  start : Int
  end_ : Int
  chromosome : String
deriving DecidableEq

/-- The database state.  `nextLID` / `nextSubLID` embed the
`AUTOINCREMENT` counters of `loci` / `subloci`.  `primary` is the set of
LIDs listed in the `primary_loci` table; that table is populated outside
`loci.py` (modelled from the spec: primary loci are the top-level
features). -/
structure DB where
  loci : List LocusRow
  subloci : List SubRow
  loci_attrs : List AttrRow
  subloci_attrs : List AttrRow
  positions : List PosRow
  primary : List Nat
  nextLID : Nat
  nextSubLID : Nat
deriving DecidableEq

/-- The empty database, as produced by `_initialize_tables`
(`AUTOINCREMENT` rowids start at 1). -/
def emptyDB : DB :=
  { loci := [], subloci := [], loci_attrs := [], subloci_attrs := []
    positions := [], primary := [], nextLID := 1, nextSubLID := 1 }

/-- A failed statement: the constraint violation raised by sqlite, carrying
the table, the offending `(LID, key)` pair, and the database state visible
after the failure. -/
structure Failure where
  db : DB
  table : String
  lid : Nat
  key : String
deriving DecidableEq

/-- The `loci` row inserted for a top-level locus by `add_locus`. -/
def rootRow (lid : Nat) (l : Locus) : LocusRow :=
  { lid := lid, chromosome := l.chromosome, start := l.start, end_ := l.end_
    source := l.source, feature_type := l.feature_type, strand := l.strand
    frame := l.frame, name := l.name }

/-- The `subloci` row inserted for a sub-locus by `_add_subloci`. -/
def subRow (lid rootLID parentLID : Nat) (l : Locus) : SubRow :=
  { lid := lid, root_LID := rootLID, parent_LID := parentLID
    chromosome := l.chromosome, start := l.start, end_ := l.end_
    source := l.source, feature_type := l.feature_type, strand := l.strand
    frame := l.frame, name := l.name }

/-- The `positions` entry inserted for a top-level locus by `add_locus`. -/
def posRow (lid : Nat) (l : Locus) : PosRow :=
  { lid := lid, start := l.start, end_ := l.end_, chromosome := l.chromosome }

/-- One `INSERT INTO loci_attrs` statement: fails on the
`UNIQUE(LID,key)` constraint if the pair is already present. -/
def insertLociAttr (lid : Nat) (db : DB) (k v : String) : Except Failure DB :=
  if db.loci_attrs.any (fun r => r.lid == lid && r.key == k) then
    .error { db := db, table := "loci_attrs", lid := lid, key := k }
  else
    .ok { db with loci_attrs := db.loci_attrs ++ [{ lid := lid, key := k, val := v }] }

/-- The attribute loop of `add_locus`: insert the root's attribute entries
one statement at a time. -/
def insertLociAttrs (lid : Nat) : DB → List (String × String) → Except Failure DB
  | db, [] => .ok db
  | db, (k, v) :: rest =>
    match insertLociAttr lid db k v with
    | .error f => .error f
    | .ok db' => insertLociAttrs lid db' rest

/-- One `INSERT INTO subloci_attrs` statement: fails on the
`UNIQUE(LID,key)` constraint if the pair is already present. -/
def insertSubAttr (lid : Nat) (db : DB) (k v : String) : Except Failure DB :=
  if db.subloci_attrs.any (fun r => r.lid == lid && r.key == k) then
    .error { db := db, table := "subloci_attrs", lid := lid, key := k }
  else
    .ok { db with subloci_attrs := db.subloci_attrs ++ [{ lid := lid, key := k, val := v }] }

/-- The attribute loop of `_add_subloci`. -/
def insertSubAttrs (lid : Nat) : DB → List (String × String) → Except Failure DB
  | db, [] => .ok db
  | db, (k, v) :: rest =>
    match insertSubAttr lid db k v with
    | .error f => .error f
    | .ok db' => insertSubAttrs lid db' rest

mutual

/-- The body of the `for l in subloci` loop of `Loci._add_subloci` for one
sub-locus `l`: insert the `subloci` row (obtaining a fresh LID via
`last_insert_rowid`), insert its attribute entries, then recurse into
`l.subloci` with the fresh LID as parent. -/
def add_sublocus (rootLID parentLID : Nat) (db : DB) : (l : Locus) → Except Failure DB
  | .mk chrom s e src ft str fr nm attrs subs =>
    let l : Locus := .mk chrom s e src ft str fr nm attrs subs
    let newLID := db.nextSubLID
    let db1 : DB := { db with
      subloci := db.subloci ++ [subRow newLID rootLID parentLID l]
      nextSubLID := newLID + 1 }
    match insertSubAttrs newLID db1 attrs with
    | .error f => .error f
    | .ok db2 => add_subloci rootLID newLID db2 subs

/-- `Loci._add_subloci`: recursively persist a list of sub-loci under
`parentLID`, all sharing `rootLID`. -/
def add_subloci (rootLID parentLID : Nat) (db : DB) : (subs : List Locus) → Except Failure DB
  | [] => .ok db
  | l :: rest =>
    match add_sublocus rootLID parentLID db l with
    | .error f => .error f
    | .ok db' => add_subloci rootLID parentLID db' rest
termination_by structural subs => subs

end

/-- `Loci.add_locus`: insert the root `loci` row (with a fresh LID), the
root's attribute entries, the whole sub-locus tree, and finally the
`positions` entry; return the root LID.  No transaction is opened here:
each statement takes effect as it executes. -/
def add_locus (db : DB) (l : Locus) : Except Failure (DB × Nat) :=
  let lid := db.nextLID
  let db1 : DB := { db with loci := db.loci ++ [rootRow lid l], nextLID := lid + 1 }
  match insertLociAttrs lid db1 l.attrs with
  | .error f => .error f
  | .ok db2 =>
    match add_subloci lid lid db2 l.subloci with
    | .error f => .error f
    | .ok db3 =>
      .ok ({ db3 with positions := db3.positions ++ [posRow lid l] }, lid)

/-- The database state an `add_locus` call leaves behind, whether it
succeeded or failed partway. -/
def addResultDB : Except Failure (DB × Nat) → DB
  | .ok (db, _) => db
  | .error f => f.db

/-- Whether an `add_locus` call failed. -/
def addFailed : Except Failure (DB × Nat) → Bool
  | .ok _ => false
  | .error _ => true

-- --------------------------------------------------
--       Query engine
-- --------------------------------------------------

/-- Errors raised by the query methods: `valueError` is the configuration
error for mutually exclusive flags, `strandError` the `StrandError` for an
unrecognized query strand. -/
inductive QueryErr where
  | valueError
  | strandError
deriving DecidableEq

/-- Modelled from the spec: the 5' boundary of a locus
(`locus.stranded_start` of the absent `locus.py`): the `start` coordinate
on the `+` strand and the `end` coordinate on the `-` strand; an
unstranded locus is treated like `+`. -/
def Locus.stranded_start (l : Locus) : Int :=
  if l.strand = some "-" then l.end_ else l.start

/-- Modelled from the spec: the 3' boundary of a locus
(`locus.stranded_end` of the absent `locus.py`). -/
def Locus.stranded_end (l : Locus) : Int :=
  if l.strand = some "-" then l.start else l.end_

/-- Modelled from the spec: the coordinate `d` bases upstream (before the
5' end) of a locus (`locus.upstream(d)` of the absent `locus.py`). -/
def Locus.upstream_pos (l : Locus) (d : Int) : Int :=
  if l.strand = some "-" then l.stranded_start + d else l.stranded_start - d

/-- Modelled from the spec: the coordinate `d` bases downstream (after the
3' end) of a locus (`locus.downstream(d)` of the absent `locus.py`). -/
def Locus.downstream_pos (l : Locus) (d : Int) : Int :=
  if l.strand = some "-" then l.stranded_end - d else l.stranded_end + d

/-- The single-locus body of `Loci.within`, returning the number of
database queries executed together with the matching `loci` rows in the
order the generator yields them (the caller maps them to `LocusView`s; we
keep the rows so the LIDs and strands remain visible).

Anchor predicate and sort key follow the four code paths of the source:
`+`-or-`ignore_strand` with `partial=False` anchors
`l.start > locus.start AND l.end < locus.end` ordered by `l.start ASC`;
with `partial=True` anchors `l.end > locus.start AND l.start < locus.end`
ordered by `l.end ASC`; the `-` branch mirrors both with `DESC` orders;
any other strand raises `StrandError`.  Candidates are the rows of `loci`
joined against `primary_loci` on the query's chromosome, and the
`same_strand` filter drops rows whose strand differs from the query's
after the lookup. -/
def withinRows (db : DB) (locus : Locus) (part ignore_strand same_strand : Bool) :
    Nat × Except QueryErr (List LocusRow) :=
  if ignore_strand && same_strand then
    (0, .error .valueError)
  else if locus.strand == some "+" || ignore_strand then
    let cands := db.loci.filter fun r =>
      decide (r.chromosome = locus.chromosome) &&
      (if part then decide (r.end_ > locus.start) && decide (r.start < locus.end_)
       else decide (r.start > locus.start) && decide (r.end_ < locus.end_)) &&
      decide (r.lid ∈ db.primary)
    let sorted :=
      if part then cands.insertionSort (fun a b => a.end_ ≤ b.end_)
      else cands.insertionSort (fun a b => a.start ≤ b.start)
    let rows := if same_strand then sorted.filter (fun r => r.strand == locus.strand) else sorted
    (1 + sorted.length, .ok rows)
  else if locus.strand == some "-" then
    let cands := db.loci.filter fun r =>
      decide (r.chromosome = locus.chromosome) &&
      (if part then decide (r.start < locus.end_) && decide (r.end_ > locus.start)
       else decide (r.end_ < locus.end_) && decide (r.start > locus.start)) &&
      decide (r.lid ∈ db.primary)
    let sorted :=
      if part then cands.insertionSort (fun a b => b.start ≤ a.start)
      else cands.insertionSort (fun a b => b.end_ ≤ a.end_)
    let rows := if same_strand then sorted.filter (fun r => r.strand == locus.strand) else sorted
    (1 + sorted.length, .ok rows)
  else
    (0, .error .strandError)

/-- `Loci.within` for a single locus, as the sequence of LIDs it yields. -/
def within (db : DB) (locus : Locus) (part ignore_strand same_strand : Bool) :
    Except QueryErr (List Nat) :=
  (fun rows => rows.map (·.lid)) <$> (withinRows db locus part ignore_strand same_strand).2

/-- The dummy upstream probe region of `Loci.upstream_loci`:
`start,end = sorted([locus.stranded_start, locus.upstream(max_distance)])`
with the opposite dummy strand, so that `within` returns the loci
nearest-first. -/
def upstream_region (locus : Locus) (max_distance : Int) : Locus :=
  { chromosome := locus.chromosome
    start := min locus.stranded_start (locus.upstream_pos max_distance)
    end_ := max locus.stranded_start (locus.upstream_pos max_distance)
    strand := if locus.strand == some "-" then some "+" else some "-"
    subloci := [] }

/-- The dummy downstream probe region of `Loci.downstream_loci`:
`start,end = sorted([locus.stranded_end, locus.downstream(max_distance)])`
with the query's orientation as dummy strand. -/
def downstream_region (locus : Locus) (max_distance : Int) : Locus :=
  { chromosome := locus.chromosome
    start := min locus.stranded_end (locus.downstream_pos max_distance)
    end_ := max locus.stranded_end (locus.downstream_pos max_distance)
    strand := if locus.strand == some "+" then some "+" else some "-"
    subloci := [] }

/-- `Loci.upstream_loci` for a single locus: delegate to `within` on the
upstream probe region, then post-filter by `same_strand` and truncate to
the first `n` results. -/
def upstream_loci (db : DB) (locus : Locus) (n : Nat) (max_distance : Int)
    (part same_strand : Bool) : Except QueryErr (List Nat) :=
  (fun rows => ((rows.filter fun x => !(same_strand && !(x.strand == locus.strand))).take n).map (·.lid))
    <$> (withinRows db (upstream_region locus max_distance) part false false).2

/-- `Loci.downstream_loci` for a single locus: delegate to `within` on the
downstream probe region, then post-filter by `same_strand` and truncate to
the first `n` results. -/
def downstream_loci (db : DB) (locus : Locus) (n : Nat) (max_distance : Int)
    (part same_strand : Bool) : Except QueryErr (List Nat) :=
  (fun rows => ((rows.filter fun x => !(same_strand && !(x.strand == locus.strand))).take n).map (·.lid))
    <$> (withinRows db (downstream_region locus max_distance) part false false).2

/-- `Loci.encompassing_loci`: LIDs of `positions` entries on the query's
chromosome with `p.start < locus.start AND p.end > locus.end`, joined
against `primary_loci`. -/
def encompassing_loci (db : DB) (locus : Locus) : List Nat :=
  (db.positions.filter fun p =>
      decide (p.chromosome = locus.chromosome) && decide (p.start < locus.start) &&
      decide (p.end_ > locus.end_) && decide (p.lid ∈ db.primary)).map (·.lid)

-- --------------------------------------------------
--       Lookup and batch input
-- --------------------------------------------------

/-- `MissingLocusError`. -/
inductive LookupErr where
  | missingLocus
deriving DecidableEq

/-- `Loci._get_LID`: the argument is either a `Locus` object or a name
string; only the string case consults the `loci` table, every non-string
input raises `MissingLocusError`. -/
def get_LID (db : DB) (locus : Sum Locus String) : Except LookupErr Nat :=
  match locus with
  | .inr name =>
    match db.loci.find? (fun r => r.name == some name) with
    | some r => .ok r.lid
    | none => .error .missingLocus
  | .inl _ => .error .missingLocus

/-- `Loci._get_locus_by_LID`: `MissingLocusError` unless the LID exists;
the returned `LocusView` is identified by its LID. -/
def get_locus_by_LID (db : DB) (lid : Nat) : Except LookupErr Nat :=
  if db.loci.any (fun r => r.lid == lid) then .ok lid else .error .missingLocus

/-- `Loci.__contains__`: `True` exactly when `_get_LID` succeeds. -/
def contains_locus (db : DB) (locus : Sum Locus String) : Bool :=
  match get_LID db locus with
  | .ok _ => true
  | .error _ => false

/-- `Loci.__getitem__`: `_get_LID` then `_get_locus_by_LID`. -/
def getitem (db : DB) (item : Sum Locus String) : Except LookupErr Nat :=
  match get_LID db item with
  | .ok lid => get_locus_by_LID db lid
  | .error e => .error e

/-- The `accepts_loci` decorator on the branch where the first argument is
an iterable of loci rather than a single `Locus`: the wrapped method is
applied to each element in order and the per-element results are collected
into a list; the first exception propagates, so no result list is produced
after a failing element. -/
def accepts_loci {E A : Type} (fn : Locus → Except E A) : List Locus → Except E (List A)
  | [] => .ok []
  | l :: rest =>
    match fn l with
    | .error e => .error e
    | .ok a =>
      match accepts_loci fn rest with
      | .error e => .error e
      | .ok res => .ok (a :: res)

-- --------------------------------------------------
--       Scenario datasets
-- --------------------------------------------------

/-- Modelled from the spec: the batch insert (`Loci.add_loci`, used to
populate the scenario dataset) applies `add_locus` to each locus in input
order. -/
def add_loci (db : DB) : List Locus → Except Failure DB
  | [] => .ok db
  | l :: rest =>
    match add_locus db l with
    | .error f => .error f
    | .ok (db', _) => add_loci db' rest

/-- Modelled from the spec: the `primary_loci` table (populated outside
`loci.py`) lists the top-level features; in the scenario dataset every
inserted locus is primary. -/
def set_primary_all (db : DB) : DB :=
  { db with primary := db.loci.map (·.lid) }

def gene_a : Locus :=
  { chromosome := "1", start := 100, end_ := 150, strand := some "+"
    name := some "gene_a", subloci := [] }

def gene_b : Locus :=
  { chromosome := "1", start := 160, end_ := 175, strand := some "+"
    name := some "gene_b", subloci := [] }

def gene_c : Locus :=
  { chromosome := "1", start := 180, end_ := 200, strand := some "-"
    name := some "gene_c", subloci := [] }

def gene_d : Locus :=
  { chromosome := "1", start := 210, end_ := 300, strand := some "+"
    name := some "gene_d", subloci := [] }

def gene_e : Locus :=
  { chromosome := "2", start := 100, end_ := 150, strand := some "+"
    name := some "gene_e", subloci := [] }

/-- The database state a batch insert leaves behind. -/
def batchResultDB : Except Failure DB → DB
  | .ok db => db
  | .error f => f.db

/-- The five-locus scenario dataset of spec section 8, with every locus
primary. -/
def simpleDB : DB :=
  set_primary_all (batchResultDB (add_loci emptyDB [gene_a, gene_b, gene_c, gene_d, gene_e]))

/-- The name of the locus a LID refers to in a database. -/
def nameOf (db : DB) (lid : Nat) : Option String :=
  match db.loci.find? (fun r => r.lid == lid) with
  | some r => r.name
  | none => none

/-- The start coordinate of the locus a LID refers to in a database. -/
def startOf (db : DB) (lid : Nat) : Option Int :=
  match db.loci.find? (fun r => r.lid == lid) with
  | some r => some r.start
  | none => none

/-- The query locus of the spec section 8 `within` scenario,
`Locus(1,140,220,'+')`. -/
def query_1_140_220 : Locus :=
  { chromosome := "1", start := 140, end_ := 220, strand := some "+", subloci := [] }

def locus_ok : Locus :=
  { chromosome := "1", start := 7, end_ := 9, subloci := [] }

def locus_bad : Locus :=
  { chromosome := "1", start := 0, end_ := 9, name := some "bad", subloci := [] }

/-- A concrete fallible per-locus operation used to exercise the batch
adapter. -/
def fnW : Locus → Except String Int := fun l =>
  if l.name = some "bad" then .error "boom" else .ok l.start

def big_locus : Locus :=
  { chromosome := "1", start := 50, end_ := 300, strand := some "+"
    name := some "big", subloci := [] }

/-- A dataset with a single primary locus `big` spanning `[50, 300]`. -/
def overlapDB : DB := set_primary_all (batchResultDB (add_loci emptyDB [big_locus]))

def query_mid : Locus :=
  { chromosome := "1", start := 100, end_ := 200, strand := some "+", subloci := [] }

def query_inside_c : Locus :=
  { chromosome := "1", start := 185, end_ := 195, strand := some "+", subloci := [] }

-- --------------------------------------------------
--       Observations on the insertion machinery
-- --------------------------------------------------

/-- The database state a tree-insertion step leaves behind, whether it
succeeded or failed partway. -/
def exDB : Except Failure DB → DB
  | .ok db => db
  | .error f => f.db

/-- A `subloci` row stores exactly the core fields of an in-memory
sub-locus. -/
def coreMatch (row : SubRow) (c : Locus) : Prop :=
  row.chromosome = c.chromosome ∧ row.start = c.start ∧ row.end_ = c.end_ ∧
    row.source = c.source ∧ row.feature_type = c.feature_type ∧
    row.strand = c.strand ∧ row.frame = c.frame ∧ row.name = c.name

mutual

/-- A sub-locus together with all its descendants, in the order
`_add_subloci` visits them. -/
def flattenOne : (l : Locus) → List Locus
  | .mk chrom s e src ft str fr nm attrs subs =>
    .mk chrom s e src ft str fr nm attrs subs :: flatten subs
termination_by structural l => l

/-- All the loci of a sub-locus forest, in `_add_subloci` visiting
order. -/
def flatten : (ls : List Locus) → List Locus
  | [] => []
  | l :: rest => flattenOne l ++ flatten rest
termination_by structural ls => ls

end

/-- How a run of `_add_subloci` can change the database: the `loci`,
`positions` and `loci_attrs` tables and the `loci` rowid counter are
untouched, and `subloci` / `subloci_attrs` only grow. -/
def CoreLe (db db' : DB) : Prop :=
  db'.loci = db.loci ∧
    db'.positions = db.positions ∧
    db'.loci_attrs = db.loci_attrs ∧
    db'.nextLID = db.nextLID ∧
    db'.primary = db.primary ∧
    (∃ t, db'.subloci = db.subloci ++ t) ∧
    (∃ t, db'.subloci_attrs = db.subloci_attrs ++ t) ∧
    db.nextSubLID ≤ db'.nextSubLID

/-- A run of `_add_subloci` relates its input state to its final state —
successful or not — by `CoreLe`. -/
def PreservesCore (db : DB) (out : Except Failure DB) : Prop :=
  CoreLe db (exDB out)

/-- Every locus of `cs` has its core row and all its attribute entries
persisted in `db'`. -/
def subTreePersisted (db' : DB) (cs : List Locus) : Prop :=
  ∀ c ∈ cs, ∃ row ∈ db'.subloci, coreMatch row c ∧
    ∀ kv ∈ c.attrs, ({ lid := row.lid, key := kv.1, val := kv.2 } : AttrRow) ∈ db'.subloci_attrs

/-- The first key of an attribute-entry list whose insertion collides with
an earlier entry, given the keys already present for this LID. -/
def firstDupKey : List String → List (String × String) → Option String
  | _, [] => none
  | seen, (k, _) :: rest => if k ∈ seen then some k else firstDupKey (k :: seen) rest

mutual

/-- The first locus of a sub-locus tree, in `_add_subloci` visiting order,
whose own attribute entries contain a duplicated key. -/
def firstDupOne : (l : Locus) → Option Locus
  | .mk chrom s e src ft str fr nm attrs subs =>
    match firstDupKey [] attrs with
    | some _ => some (.mk chrom s e src ft str fr nm attrs subs)
    | none => firstDupSub subs
termination_by structural l => l

/-- The first locus of a sub-locus forest, in `_add_subloci` visiting
order, whose own attribute entries contain a duplicated key. -/
def firstDupSub : (ls : List Locus) → Option Locus
  | [] => none
  | l :: rest =>
    match firstDupOne l with
    | some d => some d
    | none => firstDupSub rest
termination_by structural ls => ls

end

/-- The freshness invariant of the `subloci` rowid counter: every existing
`subloci_attrs` row belongs to an already-allocated sub-locus LID, so a
freshly allocated LID has no attribute rows yet.  It holds in the empty
database and is maintained by every insertion. -/
def Fresh (db : DB) : Prop :=
  ∀ r ∈ db.subloci_attrs, r.lid < db.nextSubLID

/-- A sub-locus carrying the same attribute key twice. -/
def sub_dup : Locus :=
  { chromosome := "1", start := 2, end_ := 5, attrs := [("k", "1"), ("k", "2")]
    subloci := [] }

/-- A locus whose only sub-locus carries a duplicated attribute key. -/
def locus_dup : Locus :=
  { chromosome := "1", start := 1, end_ := 10, strand := some "+", name := some "root_x"
    subloci := [sub_dup] }

def sub_good_child : Locus :=
  { chromosome := "1", start := 3, end_ := 4, attrs := [("depth", "2")], subloci := [] }

def sub_good : Locus :=
  { chromosome := "1", start := 2, end_ := 5, attrs := [("note", "x")]
    subloci := [sub_good_child] }

/-- A well-formed locus with a two-level sub-locus tree and attributes. -/
def locus_good : Locus :=
  { chromosome := "1", start := 1, end_ := 10, strand := some "+", name := some "root_y"
    attrs := [("biotype", "gene")], subloci := [sub_good] }

-- --------------------------------------------------
--       Claim theorems
-- --------------------------------------------------

/-- C4: for every database and every query locus, calling `within` with
both `ignore_strand=True` and `same_strand=True` fails with the
configuration `ValueError`, and the failure happens before any database
query executes: the query counter of the run is `0`. -/
theorem within_exclusive_flags_valueError (db : DB) (locus : Locus) (part : Bool) :
    withinRows db locus part true true = (0, .error .valueError) ∧
      within db locus part true true = .error .valueError :=
  ⟨rfl, rfl⟩

/-- C10: `_get_LID` raises `MissingLocusError` for every input that is not
a name string — in particular for every `Locus` object, whatever the
database contains — so membership (`__contains__`) and item access
(`__getitem__`) routed through `_get_LID` never find a locus passed as a
`Locus` object. -/
theorem get_LID_locus_object_always_missing (db : DB) (l : Locus) :
    get_LID db (Sum.inl l) = .error .missingLocus ∧
      contains_locus db (Sum.inl l) = false ∧
      getitem db (Sum.inl l) = .error .missingLocus :=
  ⟨rfl, rfl, rfl⟩

/-- C9: the `accepts_loci` decorator applied to a sequence of loci runs
the wrapped operation independently on each element and collects the
per-element results in input order; the first element that raises
propagates its error immediately, so no results are produced past the
failing element. -/
theorem accepts_loci_batch_spec {E A : Type} (fn : Locus → Except E A) (g : Locus → A)
    (ls pre post : List Locus) (x : Locus) (e : E)
    (hpre : ∀ l ∈ pre, ∃ a, fn l = .ok a) (hx : fn x = .error e) :
    accepts_loci fn (pre ++ x :: post) = .error e ∧
      accepts_loci (E := E) (fun l => .ok (g l)) ls = .ok (ls.map g) := by
  constructor
  · induction pre with
    | nil => simp [accepts_loci, hx]
    | cons h t ih =>
      obtain ⟨a, ha⟩ := hpre h (by simp)
      have ht := ih (fun l hl => hpre l (by simp [hl]))
      simp only [List.cons_append, accepts_loci, ha, List.append_eq, ht]
  · induction ls with
    | nil => rfl
    | cons h t ih =>
      simp only [accepts_loci]
      rw [ih]
      simp

theorem accepts_loci_batch_spec_witness :
    (∀ l ∈ [locus_ok], ∃ a, fnW l = .ok a) ∧ fnW locus_bad = .error "boom" ∧
      accepts_loci fnW ([locus_ok] ++ locus_bad :: [locus_ok]) = .error "boom" ∧
      accepts_loci (E := String) (fun l => .ok (l.start + 1)) [locus_ok, locus_bad] =
        .ok ([locus_ok, locus_bad].map (fun l => l.start + 1)) := by
  refine ⟨?_, rfl, ?_⟩
  · intro l hl
    rw [List.mem_singleton] at hl
    subst hl
    exact ⟨7, rfl⟩
  · exact accepts_loci_batch_spec fnW (fun l => l.start + 1) [locus_ok, locus_bad]
      [locus_ok] [locus_ok] locus_bad "boom"
      (by intro l hl; rw [List.mem_singleton] at hl; subst hl; exact ⟨7, rfl⟩) rfl

/-- C1 counterexample: on the five-locus scenario dataset, the call
`within(Locus(1,140,220,'+'), partial=True)` yields the LIDs
`[1, 2, 3, 4]` — it includes `gene_a` (LID 1), whose span `[100,150]`
partially overlaps the query `[140,220]` — so it does not yield exactly
`{gene_b, gene_c, gene_d}` (`[2, 3, 4]`). -/
theorem within_scenario_counterexample :
    within simpleDB query_1_140_220 true false false = .ok [1, 2, 3, 4] ∧
      nameOf simpleDB 1 = some "gene_a" ∧
      within simpleDB query_1_140_220 true false false ≠ .ok [2, 3, 4] := by
  decide

/-- C1 amended: on the five-locus scenario dataset,
`within(Locus(1,140,220,'+'), partial=True)` yields exactly
`gene_a, gene_b, gene_c, gene_d` in ascending-start order (on this data
the source's `ORDER BY end ASC` coincides with ascending start), and the
same call with `same_strand=True` yields exactly
`gene_a, gene_b, gene_d`. -/
theorem within_scenario_amended :
    within simpleDB query_1_140_220 true false false = .ok [1, 2, 3, 4] ∧
      [1, 2, 3, 4].map (nameOf simpleDB) =
        [some "gene_a", some "gene_b", some "gene_c", some "gene_d"] ∧
      [1, 2, 3, 4].map (startOf simpleDB) =
        [some 100, some 160, some 180, some 210] ∧
      within simpleDB query_1_140_220 true false true = .ok [1, 2, 4] ∧
      [1, 2, 4].map (nameOf simpleDB) =
        [some "gene_a", some "gene_b", some "gene_d"] := by
  decide

set_option maxRecDepth 8192 in
/-- C6: on the five-locus scenario dataset, `upstream_loci(gene_d, n=1)`
(defaults: `max_distance=10e100`, `partial=False`, `same_strand=False`)
yields exactly `[gene_c]` — LID 3, the nearest upstream neighbour on
chromosome 1 — and never `gene_e` (LID 5), which lies on chromosome 2. -/
theorem upstream_scenario_gene_d :
    upstream_loci simpleDB gene_d 1 (10 ^ 101) false false = .ok [3] ∧
      nameOf simpleDB 3 = some "gene_c" ∧
      nameOf simpleDB 5 = some "gene_e" ∧
      (5 : Nat) ∉ ([3] : List Nat) := by
  decide

/-- C7: `within` raises `StrandError` exactly when the query locus's
strand is unrecognized for the given flags: the strand is neither `+` nor
`-` and `ignore_strand` is `False`.  In particular an unstranded locus
queried with `ignore_strand=True` never raises `StrandError` (it takes
the `+` branch), and the mutually-exclusive-flags `ValueError` is a
different error. -/
theorem within_strandError_iff (db : DB) (locus : Locus) (part ig ss : Bool) :
    within db locus part ig ss = .error .strandError ↔
      locus.strand ≠ some "+" ∧ locus.strand ≠ some "-" ∧ ig = false := by
  by_cases h1 : locus.strand = some "+" <;> by_cases h2 : locus.strand = some "-" <;>
    cases ig <;> cases ss <;>
      simp [within, withinRows, h1, h2]

-- --------------------------------------------------
--       Helper lemmas for the directional queries
-- --------------------------------------------------

theorem withinRows_plus_eq (db : DB) (region : Locus) (h : region.strand = some "+") :
    (withinRows db region false false false).2 =
      .ok ((db.loci.filter fun r =>
          decide (r.chromosome = region.chromosome) &&
          (decide (r.start > region.start) && decide (r.end_ < region.end_)) &&
          decide (r.lid ∈ db.primary)).insertionSort fun a b => a.start ≤ b.start) := by
  simp [withinRows, h]

theorem withinRows_minus_eq (db : DB) (region : Locus) (h : region.strand = some "-") :
    (withinRows db region false false false).2 =
      .ok ((db.loci.filter fun r =>
          decide (r.chromosome = region.chromosome) &&
          (decide (r.end_ < region.end_) && decide (r.start > region.start)) &&
          decide (r.lid ∈ db.primary)).insertionSort fun a b => b.end_ ≤ a.end_) := by
  simp [withinRows, h]

/-- In the strict (`partial=False`) mode, every row the `within` query of a
`+`- or `-`-stranded region yields lies strictly inside the region. -/
theorem withinRows_strict_mem (db : DB) (region : Locus) (rows : List LocusRow)
    (h : region.strand = some "+" ∨ region.strand = some "-")
    (heq : (withinRows db region false false false).2 = .ok rows) :
    ∀ r ∈ rows, r ∈ db.loci ∧ region.start < r.start ∧ r.end_ < region.end_ := by
  intro r hr
  rcases h with h | h
  · rw [withinRows_plus_eq db region h] at heq
    obtain rfl := (Except.ok.inj heq).symm
    rw [List.mem_insertionSort, List.mem_filter] at hr
    obtain ⟨hmem, hp⟩ := hr
    simp only [Bool.and_eq_true, decide_eq_true_eq] at hp
    exact ⟨hmem, hp.1.2.1, hp.1.2.2⟩
  · rw [withinRows_minus_eq db region h] at heq
    obtain rfl := (Except.ok.inj heq).symm
    rw [List.mem_insertionSort, List.mem_filter] at hr
    obtain ⟨hmem, hp⟩ := hr
    simp only [Bool.and_eq_true, decide_eq_true_eq] at hp
    exact ⟨hmem, hp.1.2.2, hp.1.2.1⟩

theorem upstream_region_strand (locus : Locus) (d : Int) :
    (upstream_region locus d).strand = some "+" ∨ (upstream_region locus d).strand = some "-" := by
  by_cases h : locus.strand = some "-" <;> simp [upstream_region, h]

theorem downstream_region_strand (locus : Locus) (d : Int) :
    (downstream_region locus d).strand = some "+" ∨ (downstream_region locus d).strand = some "-" := by
  by_cases h : locus.strand = some "+" <;> simp [downstream_region, h]

/-- Every LID yielded by `upstream_loci` in strict mode comes from a `loci`
row lying strictly inside the upstream probe region. -/
theorem upstream_loci_mem (db : DB) (locus : Locus) (n : Nat) (d : Int) (ss : Bool)
    (up : List Nat) (hup : upstream_loci db locus n d false ss = .ok up)
    (x : Nat) (hx : x ∈ up) :
    ∃ r ∈ db.loci, r.lid = x ∧
      (upstream_region locus d).start < r.start ∧ r.end_ < (upstream_region locus d).end_ := by
  unfold upstream_loci at hup
  cases hw : (withinRows db (upstream_region locus d) false false false).2 with
  | error e => rw [hw] at hup; simp at hup
  | ok rows =>
    rw [hw, Except.map_ok] at hup
    obtain rfl := (Except.ok.inj hup).symm
    rw [List.mem_map] at hx
    obtain ⟨r, hrmem, hlid⟩ := hx
    have hr : r ∈ rows :=
      List.mem_of_mem_filter ((List.take_sublist _ _).subset hrmem)
    obtain ⟨hdb, hlo, hhi⟩ :=
      withinRows_strict_mem db (upstream_region locus d) rows (upstream_region_strand locus d) hw r hr
    exact ⟨r, hdb, hlid, hlo, hhi⟩

/-- Every LID yielded by `downstream_loci` in strict mode comes from a
`loci` row lying strictly inside the downstream probe region. -/
theorem downstream_loci_mem (db : DB) (locus : Locus) (n : Nat) (d : Int) (ss : Bool)
    (dn : List Nat) (hdn : downstream_loci db locus n d false ss = .ok dn)
    (x : Nat) (hx : x ∈ dn) :
    ∃ r ∈ db.loci, r.lid = x ∧
      (downstream_region locus d).start < r.start ∧ r.end_ < (downstream_region locus d).end_ := by
  unfold downstream_loci at hdn
  cases hw : (withinRows db (downstream_region locus d) false false false).2 with
  | error e => rw [hw] at hdn; simp at hdn
  | ok rows =>
    rw [hw, Except.map_ok] at hdn
    obtain rfl := (Except.ok.inj hdn).symm
    rw [List.mem_map] at hx
    obtain ⟨r, hrmem, hlid⟩ := hx
    have hr : r ∈ rows :=
      List.mem_of_mem_filter ((List.take_sublist _ _).subset hrmem)
    obtain ⟨hdb, hlo, hhi⟩ :=
      withinRows_strict_mem db (downstream_region locus d) rows (downstream_region_strand locus d) hw r hr
    exact ⟨r, hdb, hlid, hlo, hhi⟩

/-- C5 counterexample: with `partial=True`, `upstream_loci` and
`downstream_loci` on the locus `1:100-200,+` over a dataset containing the
single locus `big = 1:50-300,+` (which encompasses the query) both yield
the LID 1, so the two sequences are not disjoint. -/
theorem upstream_downstream_not_disjoint_counterexample :
    upstream_loci overlapDB query_mid 5 1000 true false = .ok [1] ∧
      downstream_loci overlapDB query_mid 5 1000 true false = .ok [1] ∧
      ¬ (∀ x ∈ ([1] : List Nat), x ∉ ([1] : List Nat)) := by
  decide

/-- C5 amended: with `partial=False` (strict containment in the probe
regions), for every dataset of valid rows (`start ≤ end`, pairwise
distinct LIDs), every valid query locus, every `n`, every nonnegative
`max_distance` and either `same_strand` setting, the LID sequences yielded
by `upstream_loci` and `downstream_loci` are disjoint.  With
`partial=True` the claim fails (see the counterexample): a locus
encompassing the query overlaps both probe regions. -/
theorem upstream_downstream_disjoint_amended (db : DB) (locus : Locus) (n : Nat) (d : Int)
    (ss : Bool) (up dn : List Nat)
    (hq : locus.start ≤ locus.end_)
    (hvalid : ∀ r ∈ db.loci, r.start ≤ r.end_)
    (hnodup : (db.loci.map (fun r => r.lid)).Nodup)
    (hd : 0 ≤ d)
    (hup : upstream_loci db locus n d false ss = .ok up)
    (hdn : downstream_loci db locus n d false ss = .ok dn) :
    ∀ x ∈ up, x ∉ dn := by
  intro x hxu hxd
  obtain ⟨ru, hru, hrulid, hulo, huhi⟩ := upstream_loci_mem db locus n d ss up hup x hxu
  obtain ⟨rd, hrd, hrdlid, hdlo, hdhi⟩ := downstream_loci_mem db locus n d ss dn hdn x hxd
  have heq : ru = rd :=
    List.inj_on_of_nodup_map hnodup hru hrd (by rw [hrulid, hrdlid])
  subst heq
  have hru_valid := hvalid ru hru
  by_cases hs : locus.strand = some "-" <;>
    simp only [upstream_region, downstream_region, Locus.stranded_start, Locus.stranded_end,
      Locus.upstream_pos, Locus.downstream_pos, hs, if_pos, if_neg, if_true, if_false,
      reduceIte] at hulo huhi hdlo hdhi <;>
    omega

theorem upstream_downstream_disjoint_amended_witness :
    gene_c.start ≤ gene_c.end_ ∧ (∀ r ∈ simpleDB.loci, r.start ≤ r.end_) ∧
      (simpleDB.loci.map (fun r => r.lid)).Nodup ∧ (0 : Int) ≤ 1000 ∧
      upstream_loci simpleDB gene_c 2 1000 false false = .ok [4] ∧
      downstream_loci simpleDB gene_c 2 1000 false false = .ok [2, 1] ∧
      ∀ x ∈ ([4] : List Nat), x ∉ ([2, 1] : List Nat) := by
  refine ⟨by decide, by decide, by decide, by decide, by decide, by decide, ?_⟩
  exact upstream_downstream_disjoint_amended simpleDB gene_c 2 1000 false [4] [2, 1]
    (by decide) (by decide) (by decide) (by decide) (by decide) (by decide)

-- --------------------------------------------------
--       C8
-- --------------------------------------------------

/-- C8: `encompassing_loci(locus)` yields exactly the primary loci on the
query's chromosome whose span strictly contains the query interval
(`candidate.start < locus.start` and `candidate.end > locus.end`), and no
locus from any other chromosome — stated for databases whose spatial
entries agree with their `loci` rows (every position row mirrors a stored
row, every primary locus has its spatial entry, LIDs are unique), the
invariants `add_locus` maintains. -/
theorem encompassing_loci_mem_iff (db : DB) (locus : Locus) (x : Nat)
    (hcorr : ∀ p ∈ db.positions, ∃ row ∈ db.loci, row.lid = p.lid ∧
      row.chromosome = p.chromosome ∧ row.start = p.start ∧ row.end_ = p.end_)
    (hprim : ∀ lid ∈ db.primary, ∃ p ∈ db.positions, p.lid = lid)
    (hnodup : (db.loci.map (fun r => r.lid)).Nodup) :
    x ∈ encompassing_loci db locus ↔
      x ∈ db.primary ∧ ∃ row ∈ db.loci, row.lid = x ∧
        row.chromosome = locus.chromosome ∧ row.start < locus.start ∧ row.end_ > locus.end_ := by
  constructor
  · intro hx
    simp only [encompassing_loci, List.mem_map] at hx
    obtain ⟨p, hpf, rfl⟩ := hx
    rw [List.mem_filter] at hpf
    obtain ⟨hpmem, hpred⟩ := hpf
    simp only [Bool.and_eq_true, decide_eq_true_eq] at hpred
    obtain ⟨⟨⟨hchrom, hstart⟩, hend⟩, hprimm⟩ := hpred
    obtain ⟨row, hrowmem, hlid, hc, hs, he⟩ := hcorr p hpmem
    refine ⟨hprimm, row, hrowmem, hlid, ?_, ?_, ?_⟩
    · rw [hc, hchrom]
    · rw [hs]; exact hstart
    · rw [he]; exact hend
  · rintro ⟨hxprim, row, hrowmem, hlid, hc, hs, he⟩
    obtain ⟨p, hpmem, hplid⟩ := hprim x hxprim
    obtain ⟨row', hrow'mem, hlid', hc', hs', he'⟩ := hcorr p hpmem
    have hrr : row' = row :=
      List.inj_on_of_nodup_map hnodup hrow'mem hrowmem (by rw [hlid', hplid, hlid])
    subst hrr
    simp only [encompassing_loci, List.mem_map]
    refine ⟨p, List.mem_filter.mpr ⟨hpmem, ?_⟩, hplid⟩
    simp only [Bool.and_eq_true, decide_eq_true_eq]
    refine ⟨⟨⟨?_, ?_⟩, ?_⟩, ?_⟩
    · rw [← hc', hc]
    · rw [← hs']; exact hs
    · rw [← he']; exact he
    · rw [hplid]; exact hxprim

theorem encompassing_loci_mem_iff_witness :
    (∀ p ∈ simpleDB.positions, ∃ row ∈ simpleDB.loci, row.lid = p.lid ∧
        row.chromosome = p.chromosome ∧ row.start = p.start ∧ row.end_ = p.end_) ∧
      (∀ lid ∈ simpleDB.primary, ∃ p ∈ simpleDB.positions, p.lid = lid) ∧
      (simpleDB.loci.map (fun r => r.lid)).Nodup ∧
      (3 ∈ encompassing_loci simpleDB query_inside_c ↔
        3 ∈ simpleDB.primary ∧ ∃ row ∈ simpleDB.loci, row.lid = 3 ∧
          row.chromosome = query_inside_c.chromosome ∧
          row.start < query_inside_c.start ∧ row.end_ > query_inside_c.end_) := by
  refine ⟨by decide, by decide, by decide, ?_⟩
  exact encompassing_loci_mem_iff simpleDB query_inside_c 3 (by decide) (by decide) (by decide)

-- --------------------------------------------------
--       Insertion machinery lemmas
-- --------------------------------------------------

theorem coreLe_refl (db : DB) : CoreLe db db :=
  ⟨rfl, rfl, rfl, rfl, rfl, ⟨[], by simp⟩, ⟨[], by simp⟩, le_refl _⟩

theorem coreLe_trans {a b c : DB} (h1 : CoreLe a b) (h2 : CoreLe b c) : CoreLe a c := by
  obtain ⟨l1, p1, la1, n1, pr1, ⟨t1, s1⟩, ⟨u1, sa1⟩, m1⟩ := h1
  obtain ⟨l2, p2, la2, n2, pr2, ⟨t2, s2⟩, ⟨u2, sa2⟩, m2⟩ := h2
  refine ⟨l2.trans l1, p2.trans p1, la2.trans la1, n2.trans n1, pr2.trans pr1,
    ⟨t1 ++ t2, ?_⟩, ⟨u1 ++ u2, ?_⟩, m1.trans m2⟩
  · rw [s2, s1, List.append_assoc]
  · rw [sa2, sa1, List.append_assoc]

theorem coreLe_subloci_mem {a b : DB} (h : CoreLe a b) {r : SubRow}
    (hr : r ∈ a.subloci) : r ∈ b.subloci := by
  obtain ⟨t, ht⟩ := h.2.2.2.2.2.1
  rw [ht]
  exact List.mem_append_left _ hr

theorem coreLe_subloci_attrs_mem {a b : DB} (h : CoreLe a b) {r : AttrRow}
    (hr : r ∈ a.subloci_attrs) : r ∈ b.subloci_attrs := by
  obtain ⟨t, ht⟩ := h.2.2.2.2.2.2.1
  rw [ht]
  exact List.mem_append_left _ hr

theorem insertLociAttrs_mono (lid : Nat) (attrs : List (String × String)) (db : DB) :
    (exDB (insertLociAttrs lid db attrs)).loci = db.loci ∧
      (exDB (insertLociAttrs lid db attrs)).subloci = db.subloci ∧
      (exDB (insertLociAttrs lid db attrs)).subloci_attrs = db.subloci_attrs ∧
      (exDB (insertLociAttrs lid db attrs)).positions = db.positions ∧
      (exDB (insertLociAttrs lid db attrs)).primary = db.primary ∧
      (exDB (insertLociAttrs lid db attrs)).nextLID = db.nextLID ∧
      (exDB (insertLociAttrs lid db attrs)).nextSubLID = db.nextSubLID ∧
      ∃ t, (exDB (insertLociAttrs lid db attrs)).loci_attrs = db.loci_attrs ++ t := by
  induction attrs generalizing db with
  | nil => exact ⟨rfl, rfl, rfl, rfl, rfl, rfl, rfl, ⟨[], by simp [insertLociAttrs, exDB]⟩⟩
  | cons kv rest ih =>
    obtain ⟨k, v⟩ := kv
    by_cases hc : (db.loci_attrs.any fun r => r.lid == lid && r.key == k) = true
    · simp only [insertLociAttrs, insertLociAttr, if_pos hc]
      exact ⟨rfl, rfl, rfl, rfl, rfl, rfl, rfl, ⟨[], by simp [exDB]⟩⟩
    · simp only [insertLociAttrs, insertLociAttr, if_neg hc]
      obtain ⟨h1, h2, h3, h4, h5, h6, h7, t, ht⟩ := ih _
      exact ⟨h1, h2, h3, h4, h5, h6, h7,
        ⟨{ lid := lid, key := k, val := v } :: t, by rw [ht]; simp⟩⟩

theorem insertSubAttrs_mono (lid : Nat) (attrs : List (String × String)) (db : DB) :
    (exDB (insertSubAttrs lid db attrs)).loci = db.loci ∧
      (exDB (insertSubAttrs lid db attrs)).subloci = db.subloci ∧
      (exDB (insertSubAttrs lid db attrs)).loci_attrs = db.loci_attrs ∧
      (exDB (insertSubAttrs lid db attrs)).positions = db.positions ∧
      (exDB (insertSubAttrs lid db attrs)).primary = db.primary ∧
      (exDB (insertSubAttrs lid db attrs)).nextLID = db.nextLID ∧
      (exDB (insertSubAttrs lid db attrs)).nextSubLID = db.nextSubLID ∧
      ∃ t, (exDB (insertSubAttrs lid db attrs)).subloci_attrs = db.subloci_attrs ++ t := by
  induction attrs generalizing db with
  | nil => exact ⟨rfl, rfl, rfl, rfl, rfl, rfl, rfl, ⟨[], by simp [insertSubAttrs, exDB]⟩⟩
  | cons kv rest ih =>
    obtain ⟨k, v⟩ := kv
    by_cases hc : (db.subloci_attrs.any fun r => r.lid == lid && r.key == k) = true
    · simp only [insertSubAttrs, insertSubAttr, if_pos hc]
      exact ⟨rfl, rfl, rfl, rfl, rfl, rfl, rfl, ⟨[], by simp [exDB]⟩⟩
    · simp only [insertSubAttrs, insertSubAttr, if_neg hc]
      obtain ⟨h1, h2, h3, h4, h5, h6, h7, t, ht⟩ := ih _
      exact ⟨h1, h2, h3, h4, h5, h6, h7,
        ⟨{ lid := lid, key := k, val := v } :: t, by rw [ht]; simp⟩⟩

theorem insertLociAttrs_ok_mem (lid : Nat) (attrs : List (String × String)) (db db' : DB)
    (h : insertLociAttrs lid db attrs = .ok db') :
    ∀ kv ∈ attrs, ({ lid := lid, key := kv.1, val := kv.2 } : AttrRow) ∈ db'.loci_attrs := by
  induction attrs generalizing db with
  | nil => simp
  | cons kv rest ih =>
    obtain ⟨k, v⟩ := kv
    by_cases hc : (db.loci_attrs.any fun r => r.lid == lid && r.key == k) = true
    · simp only [insertLociAttrs, insertLociAttr, if_pos hc] at h
      exact absurd h (by simp)
    · simp only [insertLociAttrs, insertLociAttr, if_neg hc] at h
      intro kv' hkv'
      rcases List.mem_cons.mp hkv' with heq | hmem
      · subst heq
        obtain ⟨-, -, -, -, -, -, -, t, ht⟩ := insertLociAttrs_mono lid rest
          { db with loci_attrs := db.loci_attrs ++ [{ lid := lid, key := k, val := v }] }
        rw [h] at ht
        simp only [exDB] at ht
        rw [ht]
        exact List.mem_append_left _ (List.mem_append_right _ (List.mem_singleton.mpr rfl))
      · exact ih _ h kv' hmem

theorem insertSubAttrs_ok_mem (lid : Nat) (attrs : List (String × String)) (db db' : DB)
    (h : insertSubAttrs lid db attrs = .ok db') :
    ∀ kv ∈ attrs, ({ lid := lid, key := kv.1, val := kv.2 } : AttrRow) ∈ db'.subloci_attrs := by
  induction attrs generalizing db with
  | nil => simp
  | cons kv rest ih =>
    obtain ⟨k, v⟩ := kv
    by_cases hc : (db.subloci_attrs.any fun r => r.lid == lid && r.key == k) = true
    · simp only [insertSubAttrs, insertSubAttr, if_pos hc] at h
      exact absurd h (by simp)
    · simp only [insertSubAttrs, insertSubAttr, if_neg hc] at h
      intro kv' hkv'
      rcases List.mem_cons.mp hkv' with heq | hmem
      · subst heq
        obtain ⟨-, -, -, -, -, -, -, t, ht⟩ := insertSubAttrs_mono lid rest
          { db with subloci_attrs := db.subloci_attrs ++ [{ lid := lid, key := k, val := v }] }
        rw [h] at ht
        simp only [exDB] at ht
        rw [ht]
        exact List.mem_append_left _ (List.mem_append_right _ (List.mem_singleton.mpr rfl))
      · exact ih _ h kv' hmem

theorem coreLe_push_subrow (db : DB) (r : SubRow) :
    CoreLe db { db with subloci := db.subloci ++ [r], nextSubLID := db.nextSubLID + 1 } :=
  ⟨rfl, rfl, rfl, rfl, rfl, ⟨[r], rfl⟩, ⟨[], by simp⟩, Nat.le_succ _⟩

theorem insertSubAttrs_coreLe (lid : Nat) (attrs : List (String × String)) (db : DB) :
    CoreLe db (exDB (insertSubAttrs lid db attrs)) := by
  obtain ⟨h1, h2, h3, h4, h5, h6, h7, t, ht⟩ := insertSubAttrs_mono lid attrs db
  exact ⟨h1, h4, h3, h6, h5, ⟨[], by simp [h2]⟩, ⟨t, ht⟩, h7.symm.le⟩

/-- The two invariants of a `_add_subloci` run, proved by the mutual
induction the recursion generates: (1) whatever the outcome, the rest of
the database is preserved (`PreservesCore`); (2) on success the whole
forest — every descendant's core row and attribute entries — is
persisted. -/
theorem add_subloci_behavior (rootLID : Nat) :
    (∀ parentLID db l, PreservesCore db (add_sublocus rootLID parentLID db l) ∧
        ∀ db', add_sublocus rootLID parentLID db l = .ok db' →
          subTreePersisted db' (flattenOne l)) ∧
      ∀ parentLID db subs, PreservesCore db (add_subloci rootLID parentLID db subs) ∧
        ∀ db', add_subloci rootLID parentLID db subs = .ok db' →
          subTreePersisted db' (flatten subs) := by
  refine add_sublocus.mutual_induct rootLID
    (fun parentLID db l => PreservesCore db (add_sublocus rootLID parentLID db l) ∧
      ∀ db', add_sublocus rootLID parentLID db l = .ok db' →
        subTreePersisted db' (flattenOne l))
    (fun parentLID db subs => PreservesCore db (add_subloci rootLID parentLID db subs) ∧
      ∀ db', add_subloci rootLID parentLID db subs = .ok db' →
        subTreePersisted db' (flatten subs))
    ?_ ?_ ?_ ?_ ?_
  · -- add_sublocus, attribute insertion fails
    intro parentLID db chrom s e src ft str fr nm attrs subs
    intro l newLID db1 f hf
    have heq : add_sublocus rootLID parentLID db (Locus.mk chrom s e src ft str fr nm attrs subs) =
        .error f := by
      show (match insertSubAttrs newLID db1 attrs with
        | .error f => (Except.error f : Except Failure DB)
        | .ok db2 => add_subloci rootLID newLID db2 subs) = Except.error f
      rw [hf]
    have hc1 : CoreLe db db1 := coreLe_push_subrow db _
    have hc2 := insertSubAttrs_coreLe newLID attrs db1
    rw [hf] at hc2
    constructor
    · show CoreLe db (exDB (add_sublocus rootLID parentLID db
        (Locus.mk chrom s e src ft str fr nm attrs subs)))
      rw [heq]
      exact coreLe_trans hc1 hc2
    · intro db' h'
      rw [heq] at h'
      exact absurd h' (by simp)
  · -- add_sublocus, attribute insertion succeeds
    intro parentLID db chrom s e src ft str fr nm attrs subs
    intro l newLID db1 db2 hok IH
    have heq : add_sublocus rootLID parentLID db (Locus.mk chrom s e src ft str fr nm attrs subs) =
        add_subloci rootLID newLID db2 subs := by
      show (match insertSubAttrs newLID db1 attrs with
        | .error f => (Except.error f : Except Failure DB)
        | .ok db2 => add_subloci rootLID newLID db2 subs) = _
      rw [hok]
    have hc1 : CoreLe db db1 := coreLe_push_subrow db _
    have hc2 := insertSubAttrs_coreLe newLID attrs db1
    rw [hok] at hc2
    simp only [exDB] at hc2
    constructor
    · show CoreLe db (exDB (add_sublocus rootLID parentLID db
        (Locus.mk chrom s e src ft str fr nm attrs subs)))
      rw [heq]
      exact coreLe_trans (coreLe_trans hc1 hc2) IH.1
    · intro db' h'
      rw [heq] at h'
      have hc3 : CoreLe db2 db' := by
        have := IH.1
        rw [h'] at this
        simpa only [exDB] using this
      intro c hc
      rw [flattenOne] at hc
      rcases List.mem_cons.mp hc with rfl | hmem
      · refine ⟨subRow newLID rootLID parentLID l, ?_, ⟨rfl, rfl, rfl, rfl, rfl, rfl, rfl, rfl⟩, ?_⟩
        · exact coreLe_subloci_mem (coreLe_trans hc2 hc3)
            (List.mem_append_right _ (List.mem_singleton.mpr rfl))
        · intro kv hkv
          exact coreLe_subloci_attrs_mem hc3
            (insertSubAttrs_ok_mem newLID attrs db1 db2 hok kv hkv)
      · exact IH.2 db' h' c hmem
  · -- add_subloci, empty list
    intro parentLID db
    constructor
    · exact coreLe_refl db
    · intro db' h'
      obtain rfl : db = db' := Except.ok.inj h'
      intro c hc
      simp [flatten] at hc
  · -- add_subloci, head sub-locus fails
    intro parentLID db l rest f hf IH1
    have heq : add_subloci rootLID parentLID db (l :: rest) = .error f := by
      show (match add_sublocus rootLID parentLID db l with
        | .error f => (Except.error f : Except Failure DB)
        | .ok db' => add_subloci rootLID parentLID db' rest) = Except.error f
      rw [hf]
    have hc1 := IH1.1
    rw [hf] at hc1
    constructor
    · show CoreLe db (exDB (add_subloci rootLID parentLID db (l :: rest)))
      rw [heq]
      exact hc1
    · intro db' h'
      rw [heq] at h'
      exact absurd h' (by simp)
  · -- add_subloci, head sub-locus succeeds
    intro parentLID db l rest db' hok IH1 IH2
    have heq : add_subloci rootLID parentLID db (l :: rest) =
        add_subloci rootLID parentLID db' rest := by
      show (match add_sublocus rootLID parentLID db l with
        | .error f => (Except.error f : Except Failure DB)
        | .ok db' => add_subloci rootLID parentLID db' rest) = _
      rw [hok]
    have hc1 : CoreLe db db' := by
      have := IH1.1
      rw [hok] at this
      simpa only [exDB] using this
    constructor
    · show CoreLe db (exDB (add_subloci rootLID parentLID db (l :: rest)))
      rw [heq]
      exact coreLe_trans hc1 IH2.1
    · intro db'' h''
      rw [heq] at h''
      have hc2 : CoreLe db' db'' := by
        have := IH2.1
        rw [h''] at this
        simpa only [exDB] using this
      intro c hc
      rw [flatten] at hc
      rcases List.mem_append.mp hc with hcl | hcr
      · obtain ⟨row, hrow, hcm, hattrs⟩ := IH1.2 db' hok c hcl
        exact ⟨row, coreLe_subloci_mem hc2 hrow, hcm,
          fun kv hkv => coreLe_subloci_attrs_mem hc2 (hattrs kv hkv)⟩
      · exact IH2.2 db'' h'' c hcr

/-- C2 counterexample: inserting `locus_dup` — whose only sub-locus
carries the attribute key `k` twice — into the empty database fails
partway, yet the root's `loci` row is persisted while the spatial entry is
not: the insertion is neither all-visible nor none-visible. -/
theorem add_locus_not_atomic_counterexample :
    addFailed (add_locus emptyDB locus_dup) = true ∧
      rootRow 1 locus_dup ∈ (addResultDB (add_locus emptyDB locus_dup)).loci ∧
      (addResultDB (add_locus emptyDB locus_dup)).positions = [] := by
  decide

/-- C2 amended: `add_locus` is not atomic; it executes its statements in
sequence with no enclosing transaction.  What holds instead: the root
`loci` row is persisted whether the call succeeds or fails; on a partial
failure the spatial entry — inserted last — is absent (`positions` is
unchanged); and only on success are the root, its attribute entries, every
descendant sub-locus record with its attribute entries, and the spatial
entry all visible. -/
theorem add_locus_effects (db : DB) (l : Locus) :
    rootRow db.nextLID l ∈ (addResultDB (add_locus db l)).loci ∧
      (addFailed (add_locus db l) = true →
        (addResultDB (add_locus db l)).positions = db.positions) ∧
      ∀ db' lid, add_locus db l = .ok (db', lid) →
        lid = db.nextLID ∧
          (∀ kv ∈ l.attrs,
            ({ lid := db.nextLID, key := kv.1, val := kv.2 } : AttrRow) ∈ db'.loci_attrs) ∧
          posRow db.nextLID l ∈ db'.positions ∧
          subTreePersisted db' (flatten l.subloci) := by
  set db1 : DB := { db with loci := db.loci ++ [rootRow db.nextLID l], nextLID := db.nextLID + 1 }
    with hdb1
  have hroot1 : rootRow db.nextLID l ∈ db1.loci := by
    rw [hdb1]
    exact List.mem_append_right _ (List.mem_singleton.mpr rfl)
  have hunf : add_locus db l =
      (match insertLociAttrs db.nextLID db1 l.attrs with
        | .error f => Except.error f
        | .ok db2 =>
          match add_subloci db.nextLID db.nextLID db2 l.subloci with
          | .error f => Except.error f
          | .ok db3 =>
            Except.ok ({ db3 with positions := db3.positions ++ [posRow db.nextLID l] },
              db.nextLID)) := rfl
  cases hE : insertLociAttrs db.nextLID db1 l.attrs with
  | error f =>
    have hadd : add_locus db l = .error f := by rw [hunf, hE]
    have hm := insertLociAttrs_mono db.nextLID l.attrs db1
    rw [hE] at hm
    simp only [exDB] at hm
    rw [hadd]
    refine ⟨?_, ?_, ?_⟩
    · simp only [addResultDB]
      rw [hm.1]
      exact hroot1
    · intro _
      simp only [addResultDB]
      exact hm.2.2.2.1
    · intro db' lid h
      exact absurd h (by simp)
  | ok db2 =>
    have hm := insertLociAttrs_mono db.nextLID l.attrs db1
    rw [hE] at hm
    simp only [exDB] at hm
    have hb := (add_subloci_behavior db.nextLID).2 db.nextLID db2 l.subloci
    cases hS : add_subloci db.nextLID db.nextLID db2 l.subloci with
    | error f =>
      have hadd : add_locus db l = .error f := by simp only [hunf, hE, hS]
      have hcore := hb.1
      rw [hS] at hcore
      simp only [PreservesCore, exDB] at hcore
      rw [hadd]
      refine ⟨?_, ?_, ?_⟩
      · simp only [addResultDB]
        rw [hcore.1, hm.1]
        exact hroot1
      · intro _
        simp only [addResultDB]
        rw [hcore.2.1]
        exact hm.2.2.2.1
      · intro db' lid h
        exact absurd h (by simp)
    | ok db3 =>
      have hadd : add_locus db l =
          .ok ({ db3 with positions := db3.positions ++ [posRow db.nextLID l] }, db.nextLID) := by
        simp only [hunf, hE, hS]
      have hcore := hb.1
      rw [hS] at hcore
      simp only [PreservesCore, exDB] at hcore
      have hper := hb.2 db3 hS
      rw [hadd]
      refine ⟨?_, ?_, ?_⟩
      · simp only [addResultDB]
        show rootRow db.nextLID l ∈ db3.loci
        rw [hcore.1, hm.1]
        exact hroot1
      · intro hfail
        simp [addFailed] at hfail
      · intro db' lid h
        have hpair := Except.ok.inj h
        injection hpair with hdb' hlid
        subst hdb'
        subst hlid
        refine ⟨rfl, ?_, ?_, ?_⟩
        · intro kv hkv
          show ({ lid := db.nextLID, key := kv.1, val := kv.2 } : AttrRow) ∈ db3.loci_attrs
          rw [hcore.2.2.1]
          exact insertLociAttrs_ok_mem db.nextLID l.attrs db1 db2 hE kv hkv
        · show posRow db.nextLID l ∈ db3.positions ++ [posRow db.nextLID l]
          exact List.mem_append_right _ (List.mem_singleton.mpr rfl)
        · exact hper

theorem add_locus_effects_witness :
    addFailed (add_locus emptyDB locus_dup) = true ∧
      (addResultDB (add_locus emptyDB locus_dup)).positions = emptyDB.positions ∧
      add_locus emptyDB locus_good =
        .ok (addResultDB (add_locus emptyDB locus_good), 1) ∧
      posRow 1 locus_good ∈ (addResultDB (add_locus emptyDB locus_good)).positions ∧
      subTreePersisted (addResultDB (add_locus emptyDB locus_good)) (flatten locus_good.subloci) := by
  refine ⟨by decide, ?_, by decide, ?_, ?_⟩
  · exact (add_locus_effects emptyDB locus_dup).2.1 (by decide)
  · exact ((add_locus_effects emptyDB locus_good).2.2
      (addResultDB (add_locus emptyDB locus_good)) 1 (by decide)).2.2.1
  · exact ((add_locus_effects emptyDB locus_good).2.2
      (addResultDB (add_locus emptyDB locus_good)) 1 (by decide)).2.2.2

-- --------------------------------------------------
--       Duplicate attribute keys and the UNIQUE constraint
-- --------------------------------------------------

theorem fresh_seen_nil {db : DB} {newLID : Nat}
    (h : ∀ r ∈ db.subloci_attrs, r.lid < newLID) :
    ∀ k : String, (∃ r ∈ db.subloci_attrs, r.lid = newLID ∧ r.key = k) ↔
      k ∈ ([] : List String) := by
  intro k
  constructor
  · rintro ⟨r, hr, hrl, -⟩
    exact absurd hrl (Nat.ne_of_lt (h r hr))
  · intro hk
    simp at hk

/-- `insertSubAttrs` succeeds or hits the `UNIQUE(LID,key)` constraint
exactly as `firstDupKey` predicts, given that the keys already present for
this LID are exactly `seen`. -/
theorem insertSubAttrs_firstDup (lid : Nat) (attrs : List (String × String)) :
    ∀ (db : DB) (seen : List String),
      (∀ k : String, (∃ r ∈ db.subloci_attrs, r.lid = lid ∧ r.key = k) ↔ k ∈ seen) →
      (firstDupKey seen attrs = none →
        ∃ db', insertSubAttrs lid db attrs = .ok db' ∧
          ∃ t, db'.subloci_attrs = db.subloci_attrs ++ t ∧ ∀ r ∈ t, r.lid = lid) ∧
      ∀ k, firstDupKey seen attrs = some k →
        ∃ f, insertSubAttrs lid db attrs = .error f ∧
          f.table = "subloci_attrs" ∧ f.key = k ∧ f.lid = lid ∧
          f.db.loci = db.loci ∧ f.db.subloci = db.subloci ∧ f.db.positions = db.positions ∧
          ∃ r ∈ f.db.subloci_attrs, r.lid = lid ∧ r.key = k := by
  induction attrs with
  | nil =>
    intro db seen _
    constructor
    · intro _
      exact ⟨db, rfl, ⟨[], by simp, by simp⟩⟩
    · intro k hk
      simp [firstDupKey] at hk
  | cons kv rest ih =>
    obtain ⟨k, v⟩ := kv
    intro db seen hseen
    by_cases hks : k ∈ seen
    · have hany : (db.subloci_attrs.any fun r => r.lid == lid && r.key == k) = true := by
        rw [List.any_eq_true]
        obtain ⟨r, hr, hrl, hrk⟩ := (hseen k).mpr hks
        exact ⟨r, hr, by simp [hrl, hrk]⟩
      constructor
      · intro hnone
        rw [firstDupKey, if_pos hks] at hnone
        exact absurd hnone (by simp)
      · intro k' hk'
        rw [firstDupKey, if_pos hks] at hk'
        obtain rfl := Option.some.inj hk'
        refine ⟨{ db := db, table := "subloci_attrs", lid := lid, key := k }, ?_, rfl, rfl, rfl,
          rfl, rfl, rfl, ?_⟩
        · simp only [insertSubAttrs, insertSubAttr, hany, if_true]
        · exact (hseen k).mpr hks
    · have hany : ¬ ((db.subloci_attrs.any fun r => r.lid == lid && r.key == k) = true) := by
        rw [List.any_eq_true]
        rintro ⟨r, hr, hp⟩
        simp only [Bool.and_eq_true, beq_iff_eq] at hp
        exact hks ((hseen k).mp ⟨r, hr, hp.1, hp.2⟩)
      set db2 : DB :=
        { db with subloci_attrs := db.subloci_attrs ++ [{ lid := lid, key := k, val := v }] }
        with hdb2
      have hstep : insertSubAttrs lid db ((k, v) :: rest) = insertSubAttrs lid db2 rest := by
        simp only [insertSubAttrs, insertSubAttr, if_neg hany]
      have hseen2 : ∀ k' : String,
          (∃ r ∈ db2.subloci_attrs, r.lid = lid ∧ r.key = k') ↔ k' ∈ k :: seen := by
        intro k'
        constructor
        · rintro ⟨r, hr, hrl, hrk⟩
          rw [hdb2] at hr
          rcases List.mem_append.mp hr with h | h
          · exact List.mem_cons_of_mem _ ((hseen k').mp ⟨r, h, hrl, hrk⟩)
          · rw [List.mem_singleton] at h
            subst h
            simp only at hrk
            exact hrk ▸ List.mem_cons_self _ _
        · intro hk'
          rcases List.mem_cons.mp hk' with rfl | h
          · exact ⟨{ lid := lid, key := k', val := v }, by rw [hdb2]; simp, rfl, rfl⟩
          · obtain ⟨r, hr, hrl, hrk⟩ := (hseen k').mpr h
            exact ⟨r, by rw [hdb2]; exact List.mem_append_left _ hr, hrl, hrk⟩
      have hrec := ih db2 (k :: seen) hseen2
      constructor
      · intro hnone
        rw [firstDupKey, if_neg hks] at hnone
        obtain ⟨db', hok, t, ht, htl⟩ := hrec.1 hnone
        refine ⟨db', by rw [hstep]; exact hok,
          ⟨{ lid := lid, key := k, val := v } :: t, ?_, ?_⟩⟩
        · rw [ht, hdb2]
          simp
        · intro r hr
          rcases List.mem_cons.mp hr with rfl | h
          · rfl
          · exact htl r h
      · intro k' hk'
        rw [firstDupKey, if_neg hks] at hk'
        obtain ⟨f, herr, htab, hkey, hlidf, hloci, hsub, hpos, hex⟩ := hrec.2 k' hk'
        refine ⟨f, by rw [hstep]; exact herr, htab, hkey, hlidf, hloci, hsub, hpos, ?_⟩
        obtain ⟨r, hr, hrl, hrk⟩ := hex
        exact ⟨r, hr, hrl, hrk⟩

/-- `insertLociAttrs` succeeds when the entry keys have no duplicate and
none is already present for this LID. -/
theorem insertLociAttrs_fresh_ok (lid : Nat) (attrs : List (String × String)) :
    ∀ (db : DB) (seen : List String),
      (∀ k : String, (∃ r ∈ db.loci_attrs, r.lid = lid ∧ r.key = k) ↔ k ∈ seen) →
      firstDupKey seen attrs = none →
      ∃ db', insertLociAttrs lid db attrs = .ok db' := by
  induction attrs with
  | nil =>
    intro db seen _ _
    exact ⟨db, rfl⟩
  | cons kv rest ih =>
    obtain ⟨k, v⟩ := kv
    intro db seen hseen hnone
    by_cases hks : k ∈ seen
    · rw [firstDupKey, if_pos hks] at hnone
      exact absurd hnone (by simp)
    · rw [firstDupKey, if_neg hks] at hnone
      have hany : ¬ ((db.loci_attrs.any fun r => r.lid == lid && r.key == k) = true) := by
        rw [List.any_eq_true]
        rintro ⟨r, hr, hp⟩
        simp only [Bool.and_eq_true, beq_iff_eq] at hp
        exact hks ((hseen k).mp ⟨r, hr, hp.1, hp.2⟩)
      set db2 : DB :=
        { db with loci_attrs := db.loci_attrs ++ [{ lid := lid, key := k, val := v }] }
        with hdb2
      have hseen2 : ∀ k' : String,
          (∃ r ∈ db2.loci_attrs, r.lid = lid ∧ r.key = k') ↔ k' ∈ k :: seen := by
        intro k'
        constructor
        · rintro ⟨r, hr, hrl, hrk⟩
          rw [hdb2] at hr
          rcases List.mem_append.mp hr with h | h
          · exact List.mem_cons_of_mem _ ((hseen k').mp ⟨r, h, hrl, hrk⟩)
          · rw [List.mem_singleton] at h
            subst h
            simp only at hrk
            exact hrk ▸ List.mem_cons_self _ _
        · intro hk'
          rcases List.mem_cons.mp hk' with rfl | h
          · exact ⟨{ lid := lid, key := k', val := v }, by rw [hdb2]; simp, rfl, rfl⟩
          · obtain ⟨r, hr, hrl, hrk⟩ := (hseen k').mpr h
            exact ⟨r, by rw [hdb2]; exact List.mem_append_left _ hr, hrl, hrk⟩
      obtain ⟨db', hok⟩ := ih db2 (k :: seen) hseen2 hnone
      exact ⟨db', by simp only [insertLociAttrs, insertLociAttr, if_neg hany]; exact hok⟩

/-- A `_add_subloci` run over a fresh database succeeds when no locus of
the forest duplicates an attribute key, and fails with the
`subloci_attrs` `UNIQUE(LID,key)` violation at the first locus `d` (in
visiting order) that does: the failure names the duplicated key, the
first entry with that key is already persisted, and so is `d`'s own core
row. -/
theorem add_subloci_firstDup (rootLID : Nat) :
    (∀ parentLID db l, Fresh db →
        (firstDupOne l = none →
          ∃ db', add_sublocus rootLID parentLID db l = .ok db' ∧ Fresh db') ∧
        ∀ d, firstDupOne l = some d →
          ∃ f, add_sublocus rootLID parentLID db l = .error f ∧
            f.table = "subloci_attrs" ∧
            (∃ k, firstDupKey [] d.attrs = some k ∧ f.key = k ∧
              ∃ r ∈ f.db.subloci_attrs, r.lid = f.lid ∧ r.key = k) ∧
            ∃ row ∈ f.db.subloci, coreMatch row d) ∧
      ∀ parentLID db subs, Fresh db →
        (firstDupSub subs = none →
          ∃ db', add_subloci rootLID parentLID db subs = .ok db' ∧ Fresh db') ∧
        ∀ d, firstDupSub subs = some d →
          ∃ f, add_subloci rootLID parentLID db subs = .error f ∧
            f.table = "subloci_attrs" ∧
            (∃ k, firstDupKey [] d.attrs = some k ∧ f.key = k ∧
              ∃ r ∈ f.db.subloci_attrs, r.lid = f.lid ∧ r.key = k) ∧
            ∃ row ∈ f.db.subloci, coreMatch row d := by
  refine add_sublocus.mutual_induct rootLID
    (fun parentLID db l => Fresh db →
      (firstDupOne l = none →
        ∃ db', add_sublocus rootLID parentLID db l = .ok db' ∧ Fresh db') ∧
      ∀ d, firstDupOne l = some d →
        ∃ f, add_sublocus rootLID parentLID db l = .error f ∧
          f.table = "subloci_attrs" ∧
          (∃ k, firstDupKey [] d.attrs = some k ∧ f.key = k ∧
            ∃ r ∈ f.db.subloci_attrs, r.lid = f.lid ∧ r.key = k) ∧
          ∃ row ∈ f.db.subloci, coreMatch row d)
    (fun parentLID db subs => Fresh db →
      (firstDupSub subs = none →
        ∃ db', add_subloci rootLID parentLID db subs = .ok db' ∧ Fresh db') ∧
      ∀ d, firstDupSub subs = some d →
        ∃ f, add_subloci rootLID parentLID db subs = .error f ∧
          f.table = "subloci_attrs" ∧
          (∃ k, firstDupKey [] d.attrs = some k ∧ f.key = k ∧
            ∃ r ∈ f.db.subloci_attrs, r.lid = f.lid ∧ r.key = k) ∧
          ∃ row ∈ f.db.subloci, coreMatch row d)
    ?_ ?_ ?_ ?_ ?_
  · -- add_sublocus, attribute insertion fails
    intro parentLID db chrom s e src ft str fr nm attrs subs
    intro l newLID db1 f hf hfresh
    have hfresh1 : ∀ r ∈ db1.subloci_attrs, r.lid < newLID := fun r hr => hfresh r hr
    have hla := insertSubAttrs_firstDup newLID attrs db1 [] (fresh_seen_nil hfresh1)
    cases hfd : firstDupKey [] attrs with
    | none =>
      obtain ⟨db', hok, -⟩ := hla.1 hfd
      rw [hok] at hf
      exact absurd hf (by simp)
    | some k =>
      obtain ⟨f', herr, htab, hkey, hlidf, hloci, hsub, hpos, hex⟩ := hla.2 k hfd
      rw [herr] at hf
      obtain rfl := Except.error.inj hf
      have heq : add_sublocus rootLID parentLID db
          (Locus.mk chrom s e src ft str fr nm attrs subs) = .error f' := by
        show (match insertSubAttrs newLID db1 attrs with
          | .error f => (Except.error f : Except Failure DB)
          | .ok db2 => add_subloci rootLID newLID db2 subs) = Except.error f'
        rw [herr]
      constructor
      · intro hnone
        rw [firstDupOne, hfd] at hnone
        exact absurd hnone (by simp)
      · intro d hd
        rw [firstDupOne, hfd] at hd
        obtain rfl := Option.some.inj hd
        refine ⟨f', heq, htab, ⟨k, hfd, hkey, ?_⟩, ?_⟩
        · obtain ⟨r, hr, hrl, hrk⟩ := hex
          exact ⟨r, hr, hrl.trans hlidf.symm, hrk⟩
        · refine ⟨subRow newLID rootLID parentLID l, ?_,
            ⟨rfl, rfl, rfl, rfl, rfl, rfl, rfl, rfl⟩⟩
          rw [hsub]
          exact List.mem_append_right _ (List.mem_singleton.mpr rfl)
  · -- add_sublocus, attribute insertion succeeds
    intro parentLID db chrom s e src ft str fr nm attrs subs
    intro l newLID db1 db2 hok IH hfresh
    have hfresh1 : ∀ r ∈ db1.subloci_attrs, r.lid < newLID := fun r hr => hfresh r hr
    have hla := insertSubAttrs_firstDup newLID attrs db1 [] (fresh_seen_nil hfresh1)
    cases hfd : firstDupKey [] attrs with
    | some k =>
      obtain ⟨f, herr, -⟩ := hla.2 k hfd
      rw [herr] at hok
      exact absurd hok (by simp)
    | none =>
      obtain ⟨db2', hok', t, ht, htl⟩ := hla.1 hfd
      rw [hok'] at hok
      obtain rfl := Except.ok.inj hok
      have hmono := insertSubAttrs_mono newLID attrs db1
      rw [hok'] at hmono
      simp only [exDB] at hmono
      have hns : db2'.nextSubLID = newLID + 1 := hmono.2.2.2.2.2.2.1
      have hfresh2 : Fresh db2' := by
        intro r hr
        rw [ht] at hr
        rw [hns]
        rcases List.mem_append.mp hr with h | h
        · have h1 : r.lid < newLID := hfresh1 r h
          omega
        · have h1 : r.lid = newLID := htl r h
          omega
      have IH2 := IH hfresh2
      have heq : add_sublocus rootLID parentLID db
          (Locus.mk chrom s e src ft str fr nm attrs subs) =
          add_subloci rootLID newLID db2' subs := by
        show (match insertSubAttrs newLID db1 attrs with
          | .error f => (Except.error f : Except Failure DB)
          | .ok db2 => add_subloci rootLID newLID db2 subs) = _
        rw [hok']
      constructor
      · intro hnone
        simp only [firstDupOne, hfd] at hnone
        obtain ⟨db3, hok3, hfresh3⟩ := IH2.1 hnone
        exact ⟨db3, by rw [heq]; exact hok3, hfresh3⟩
      · intro d hd
        simp only [firstDupOne, hfd] at hd
        obtain ⟨f, herr3, hrest⟩ := IH2.2 d hd
        exact ⟨f, by rw [heq]; exact herr3, hrest⟩
  · -- add_subloci, empty list
    intro parentLID db hfresh
    constructor
    · intro _
      exact ⟨db, rfl, hfresh⟩
    · intro d hd
      simp [firstDupSub] at hd
  · -- add_subloci, head sub-locus fails
    intro parentLID db l rest f hf IH1 hfresh
    have IH1f := IH1 hfresh
    cases hdo : firstDupOne l with
    | none =>
      obtain ⟨db', hok', -⟩ := IH1f.1 hdo
      rw [hok'] at hf
      exact absurd hf (by simp)
    | some d0 =>
      obtain ⟨f', herr', hrest⟩ := IH1f.2 d0 hdo
      rw [herr'] at hf
      obtain rfl := Except.error.inj hf
      have heq : add_subloci rootLID parentLID db (l :: rest) = .error f' := by
        show (match add_sublocus rootLID parentLID db l with
          | .error f => (Except.error f : Except Failure DB)
          | .ok db' => add_subloci rootLID parentLID db' rest) = Except.error f'
        rw [herr']
      constructor
      · intro hnone
        simp [firstDupSub, hdo] at hnone
      · intro d hd
        simp only [firstDupSub, hdo] at hd
        obtain rfl := Option.some.inj hd
        exact ⟨f', heq, hrest⟩
  · -- add_subloci, head sub-locus succeeds
    intro parentLID db l rest db' hok IH1 IH2 hfresh
    have IH1f := IH1 hfresh
    cases hdo : firstDupOne l with
    | some d0 =>
      obtain ⟨f, herr, -⟩ := IH1f.2 d0 hdo
      rw [herr] at hok
      exact absurd hok (by simp)
    | none =>
      obtain ⟨db'', hok'', hfresh''⟩ := IH1f.1 hdo
      rw [hok''] at hok
      obtain rfl := Except.ok.inj hok
      have IH2f := IH2 hfresh''
      have heq : add_subloci rootLID parentLID db (l :: rest) =
          add_subloci rootLID parentLID db'' rest := by
        show (match add_sublocus rootLID parentLID db l with
          | .error f => (Except.error f : Except Failure DB)
          | .ok db' => add_subloci rootLID parentLID db' rest) = _
        rw [hok'']
      constructor
      · intro hnone
        simp only [firstDupSub, hdo] at hnone
        obtain ⟨db3, hok3, hfresh3⟩ := IH2f.1 hnone
        exact ⟨db3, by rw [heq]; exact hok3, hfresh3⟩
      · intro d hd
        simp only [firstDupSub, hdo] at hd
        obtain ⟨f, herr3, hrest⟩ := IH2f.2 d hd
        exact ⟨f, by rw [heq]; exact herr3, hrest⟩

/-- C3: inserting a locus whose sub-locus tree contains a sub-locus with
two attribute entries sharing a key fails at the second insertion of that
key with the `subloci_attrs` `UNIQUE(LID,key)` constraint violation, and
after the failure the root locus row and the already-inserted sub-locus
row (with the first of the two entries) remain persisted — stated for a
database satisfying the rowid-freshness invariants, with `d` the first
offending sub-locus in visiting order and the root's own attribute keys
duplicate-free (so the root's attribute insertion succeeds first). -/
theorem add_locus_duplicate_sublocus_attr (db : DB) (l : Locus) (d : Locus)
    (hfreshL : ∀ r ∈ db.loci_attrs, r.lid < db.nextLID)
    (hfreshS : Fresh db)
    (hroot : firstDupKey [] l.attrs = none)
    (hdup : firstDupSub l.subloci = some d) :
    ∃ f, add_locus db l = .error f ∧ f.table = "subloci_attrs" ∧
      (∃ k, firstDupKey [] d.attrs = some k ∧ f.key = k ∧
        ∃ r ∈ f.db.subloci_attrs, r.lid = f.lid ∧ r.key = k) ∧
      (∃ row ∈ f.db.subloci, coreMatch row d) ∧
      rootRow db.nextLID l ∈ f.db.loci ∧
      f.db.positions = db.positions := by
  set db1 : DB := { db with loci := db.loci ++ [rootRow db.nextLID l], nextLID := db.nextLID + 1 }
    with hdb1
  have hunf : add_locus db l =
      (match insertLociAttrs db.nextLID db1 l.attrs with
        | .error f => Except.error f
        | .ok db2 =>
          match add_subloci db.nextLID db.nextLID db2 l.subloci with
          | .error f => Except.error f
          | .ok db3 =>
            Except.ok ({ db3 with positions := db3.positions ++ [posRow db.nextLID l] },
              db.nextLID)) := rfl
  have hseenL : ∀ k : String,
      (∃ r ∈ db1.loci_attrs, r.lid = db.nextLID ∧ r.key = k) ↔ k ∈ ([] : List String) := by
    intro k
    constructor
    · rintro ⟨r, hr, hrl, -⟩
      exact absurd hrl (Nat.ne_of_lt (hfreshL r hr))
    · intro hk
      simp at hk
  obtain ⟨db2, hE⟩ := insertLociAttrs_fresh_ok db.nextLID l.attrs db1 [] hseenL hroot
  have hm := insertLociAttrs_mono db.nextLID l.attrs db1
  rw [hE] at hm
  simp only [exDB] at hm
  have hfresh2 : Fresh db2 := by
    intro r hr
    rw [hm.2.2.1] at hr
    rw [hm.2.2.2.2.2.2.1]
    exact hfreshS r hr
  obtain ⟨f, hS, htab, hkinfo, hrow⟩ :=
    ((add_subloci_firstDup db.nextLID).2 db.nextLID db2 l.subloci hfresh2).2 d hdup
  have hcore := ((add_subloci_behavior db.nextLID).2 db.nextLID db2 l.subloci).1
  rw [hS] at hcore
  simp only [PreservesCore, exDB] at hcore
  have hadd : add_locus db l = .error f := by simp only [hunf, hE, hS]
  refine ⟨f, hadd, htab, hkinfo, hrow, ?_, ?_⟩
  · rw [hcore.1, hm.1]
    exact List.mem_append_right _ (List.mem_singleton.mpr rfl)
  · rw [hcore.2.1]
    exact hm.2.2.2.1

theorem add_locus_duplicate_sublocus_attr_witness :
    (∀ r ∈ emptyDB.loci_attrs, r.lid < emptyDB.nextLID) ∧ Fresh emptyDB ∧
      firstDupKey [] locus_dup.attrs = none ∧
      firstDupSub locus_dup.subloci = some sub_dup ∧
      ∃ f, add_locus emptyDB locus_dup = .error f ∧ f.table = "subloci_attrs" ∧
        (∃ k, firstDupKey [] sub_dup.attrs = some k ∧ f.key = k ∧
          ∃ r ∈ f.db.subloci_attrs, r.lid = f.lid ∧ r.key = k) ∧
        (∃ row ∈ f.db.subloci, coreMatch row sub_dup) ∧
        rootRow 1 locus_dup ∈ f.db.loci ∧
        f.db.positions = emptyDB.positions := by
  refine ⟨by decide, by intro r hr; simp [emptyDB] at hr, by decide, rfl, ?_⟩
  exact add_locus_duplicate_sublocus_attr emptyDB locus_dup sub_dup
    (by decide) (by intro r hr; simp [emptyDB] at hr) (by decide) rfl

end LocusPocus
